import Mathlib

/-
  Verification development for the CFG-annotation-and-metrics engine
  (genDot, findNextBlockWithNodes and their helpers in main.go).

  The engine consumes an already-built control-flow graph: a list of
  basic blocks, each carrying an index, a structural kind, a list of
  statement nodes, successor references and a liveness flag.  It emits
  a dot document and two complexity scores (Chepin, cyclomatic).

  Modelling conventions:
  - Go runtime panics (index out of range on a slice) are modelled as
    Except.error; a panic aborts the whole run and discards all output.
  - Go float64 arithmetic on the Chepin score is modelled with Rat;
    the only non-integer weight is 0.5, which float64 represents
    exactly at these magnitudes.
  - Go map iteration order is unspecified.  The one map iteration whose
    order is observable in the output (the variable-trace edge loop) is
    modelled by an explicit traceOrder parameter.  The three Chepin
    reconciliation loops only delete keys, deletions commute, so they
    are modelled as filters.
-/

namespace PDG

/-- Expressions as consumed by getValue (go/ast expression shapes). -/
inductive Expr where
  | basicLit (v : String)
  | ident (name : String)
  | binary (x : Expr) (op : String) (y : Expr)
  | call (fn : Expr) (args : List Expr)
  | selector (x : Expr) (sel : String)
  | paren (x : Expr)
  | other (typeName : String)

/-- The Go format verb for the dynamic type of an expression, as printed
by the default cases of getValue and of the ExprStmt switch. -/
def exprTypeName : Expr → String
  | Expr.basicLit _ => "*ast.BasicLit"
  | Expr.ident _ => "*ast.Ident"
  | Expr.binary _ _ _ => "*ast.BinaryExpr"
  | Expr.call _ _ => "*ast.CallExpr"
  | Expr.selector _ _ => "*ast.SelectorExpr"
  | Expr.paren _ => "*ast.ParenExpr"
  | Expr.other t => t

/-- Embedding of getValue from main.go.  The default case prints the
dynamic type name; ParenExpr is not handled by getValue and falls to
the default case. -/
def getValue : Expr → String
  | Expr.basicLit v => v
  | Expr.ident n => n
  | Expr.binary x op y => getValue x ++ " " ++ op ++ " " ++ getValue y
  | Expr.call fn _ =>
    match fn with
    | Expr.ident n => n
    | _ => "function call"
  | Expr.selector x sel => getValue x ++ "." ++ sel
  | e => exprTypeName e

/-- A left-hand side of an assignment: either a simple identifier or some
other expression shape (index, selector, ...), which the renderer skips. -/
inductive Lhs where
  | ident (name : String)
  | nonIdent (typeName : String)

/-- Statement nodes of a basic block, one constructor per case of the
type switch in genDot (second, metric-bearing version in main.go).
Branch statements carry break/continue per the data model. -/
inductive Node where
  | valueSpec (names : List String) (values : List Expr)
  | declStmt (names : List String) (values : List Expr)
  | assignStmt (lhs : List Lhs) (rhs : List Expr)
  | returnStmt (results : List Expr)
  | exprStmt (x : Expr)
  | incDecStmt (name : String) (tok : String)
  | binaryExpr (x : Expr) (op : String) (y : Expr)
  | callExpr (fn : Expr) (args : List Expr)
  | selectorExpr (x : Expr) (sel : String)
  | parenExpr (x : Expr)
  | ifStmt (cond : Expr) (hasElse : Bool)
  | forStmt (cond : Expr)
  | branchStmt (isBreak : Bool)
  | other (typeName : String)

/-- Structural kind of a block (cfg.BlockKind). -/
inductive BKind where
  | body
  | ifThen
  | ifElse
  | ifDone
  | forBody
  | forDone
  | forLoop
  | forPost
  | other (s : String)

/-- String rendering of a block kind (BlockKind.String). -/
def kindStr : BKind → String
  | BKind.body => "Body"
  | BKind.ifThen => "IfThen"
  | BKind.ifElse => "IfElse"
  | BKind.ifDone => "IfDone"
  | BKind.forBody => "ForBody"
  | BKind.forDone => "ForDone"
  | BKind.forLoop => "ForLoop"
  | BKind.forPost => "ForPost"
  | BKind.other s => s

/-- A successor reference as read from a block: the referenced block
index and its structural kind (succ.Index, succ.Kind). -/
structure SuccRef where
  index : Nat
  kind : BKind

/-- A basic block as delivered by the external CFG builder. -/
structure Block where
  index : Nat
  kind : BKind
  nodes : List Node
  succs : List SuccRef
  live : Bool

/-- A control-flow graph: the list of blocks (cg.Blocks). -/
structure CFG where
  blocks : List Block

/-- Block.String of the cfg package: "block %d (%s)". -/
def blockString (b : Block) : String :=
  "block " ++ toString b.index ++ " (" ++ kindStr b.kind ++ ")"

/-- Slice indexing cg.Blocks with the Go panic modelled as an error. -/
def blockAt (cg : CFG) (i : Nat) : Except String Block :=
  match cg.blocks[i]? with
  | some b => Except.ok b
  | none => Except.error "index out of range"

/-- Edge color derived from the structural kind of the successor. -/
def colorOf : BKind → String
  | BKind.ifThen | BKind.forBody => "yellow"
  | BKind.ifDone | BKind.ifElse | BKind.forDone => "red"
  | _ => "black"

/-- Node identifier "block_i_node_j". -/
def nodeIDOf (blockID : String) (i : Nat) : String :=
  blockID ++ "_node_" ++ toString i

/-- Insertion of a key into a Go map used as a set (m[k] = true). -/
def listInsert (s : List String) (k : String) : List String :=
  if k ∈ s then s else s ++ [k]

/-- Increment of the occurrence counter map (m[k]++). -/
def mapIncr (m : List (String × Nat)) (k : String) : List (String × Nat) :=
  if m.any (fun p => p.1 == k) then
    m.map (fun p => if p.1 == k then (p.1, p.2 + 1) else p)
  else
    m ++ [(k, 1)]

/-- Append of a node id to the trace list of a variable
(variables[name] = append(variables[name], nodeID)). -/
def varsAppend (vs : List (String × List String)) (k v : String) :
    List (String × List String) :=
  if vs.any (fun p => p.1 == k) then
    vs.map (fun p => if p.1 == k then (p.1, p.2 ++ [v]) else p)
  else
    vs ++ [(k, [v])]

/-- Traversal state accumulated by genDot: emitted dot chunks (in
emission order), the variable trace map and the three Chepin role
maps.  unusedVars starts empty and is only written during
reconciliation, so it is not part of the traversal state. -/
structure TState where
  chunks : List String
  varTrace : List (String × List String)
  inputVars : List (String × Nat)
  modifiedVars : List String
  controlVars : List String

def emptyTState : TState := ⟨[], [], [], [], []⟩

def addChunk (st : TState) (c : String) : TState :=
  { st with chunks := st.chunks ++ [c] }

def addVar (st : TState) (k v : String) : TState :=
  { st with varTrace := varsAppend st.varTrace k v }

def addInput (st : TState) (k : String) : TState :=
  { st with inputVars := mapIncr st.inputVars k }

def addModified (st : TState) (k : String) : TState :=
  { st with modifiedVars := listInsert st.modifiedVars k }

def addControl (st : TState) (k : String) : TState :=
  { st with controlVars := listInsert st.controlVars k }

/-- Per-block loop variables of genDot (prevNodeID, lastNodeID, loopID);
all three are reset to the empty string at the start of every block. -/
structure BlockCtx where
  prevNodeID : String
  lastNodeID : String
  loopID : String

/-- Code run after the node type switch: emit the sequential edge from
the previous node of the same block (if any) and shift the node ids. -/
def finishNode (nodeID : String) (loopNew : String) (ctx : BlockCtx) (st : TState) :
    TState × BlockCtx :=
  (if ctx.prevNodeID ≠ "" then
      addChunk st ("  " ++ ctx.prevNodeID ++ " -> " ++ nodeID ++ ";\n")
    else st,
   ⟨nodeID, nodeID, loopNew⟩)

/-- Escaping of double quotes (strings.ReplaceAll label q bq). -/
def escQuotes (s : String) : String :=
  String.mk (s.data.foldr
    (fun c acc => if c == '"' then '\\' :: '"' :: acc else c :: acc) [])

/-- The body of the AssignStmt case: iterate the left-hand sides with
their range index j.  A non-identifier lhs is skipped entirely.  For an
identifier lhs the label value reads rhs[j] guarded, but the subsequent
type test on n.Rhs[j] is unguarded in the source and panics when
j is out of range of the right-hand side list. -/
def procAssign (nodeID : String) (rhs : List Expr) :
    List (Nat × Lhs) → TState → Except String TState
  | [], st => Except.ok st
  | (_, Lhs.nonIdent _) :: rest, st => procAssign nodeID rhs rest st
  | (j, Lhs.ident name) :: rest, st =>
    let value := match rhs[j]? with
      | some e => getValue e
      | none => "nil"
    let st1 := addInput (addVar (addChunk st
      ("  " ++ nodeID ++ " [label=\"" ++ name ++ " = " ++ value ++ "\"];\n"))
      name nodeID) name
    match rhs[j]? with
    | none => Except.error "index out of range"
    | some e =>
      let st2 := match e with
        | Expr.binary _ _ _ => addModified st1 name
        | _ => st1
      procAssign nodeID rhs rest st2

/-- The same iteration restricted to identifier entries (the j index is
the position in the original Lhs list). -/
def procAssignIdents (nodeID : String) (rhs : List Expr) :
    List (Nat × String) → TState → Except String TState
  | [], st => Except.ok st
  | (j, name) :: rest, st =>
    let value := match rhs[j]? with
      | some e => getValue e
      | none => "nil"
    let st1 := addInput (addVar (addChunk st
      ("  " ++ nodeID ++ " [label=\"" ++ name ++ " = " ++ value ++ "\"];\n"))
      name nodeID) name
    match rhs[j]? with
    | none => Except.error "index out of range"
    | some e =>
      let st2 := match e with
        | Expr.binary _ _ _ => addModified st1 name
        | _ => st1
      procAssignIdents nodeID rhs rest st2

/-- The identifier left-hand sides with their original range indices. -/
def identOf (p : Nat × Lhs) : Option (Nat × String) :=
  match p.2 with
  | Lhs.ident n => some (p.1, n)
  | Lhs.nonIdent _ => none

def identEntries (lhs : List Lhs) : List (Nat × String) :=
  lhs.enum.filterMap identOf

/-- One iteration of the node type switch of genDot, followed by the
sequential-edge emission.  Go slice accesses that can panic (Succs[0],
Succs[1], Rhs[j], cg.Blocks[idx]) are modelled as Except.error. -/
def procNode (cg : CFG) (blk : Block) (blockID : String) (i : Nat) (node : Node)
    (st : TState) (ctx : BlockCtx) : Except String (TState × BlockCtx) :=
  let nodeID := nodeIDOf blockID i
  match node with
  | Node.valueSpec names values =>
    let st' := names.enum.foldl (fun s p =>
      let value := match values[p.1]? with
        | some e => getValue e
        | none => "nul"
      addInput (addVar (addChunk s
        ("  " ++ nodeID ++ " [label=\"" ++ p.2 ++ " = " ++ value ++ "\"];\n"))
        p.2 nodeID) p.2) st
    Except.ok (finishNode nodeID ctx.loopID ctx st')
  | Node.declStmt names values =>
    let st' := names.enum.foldl (fun s p =>
      let value := match values[p.1]? with
        | some e => getValue e
        | none => "nil"
      addInput (addVar (addChunk s
        ("  " ++ nodeID ++ " [label=\"" ++ p.2 ++ " = " ++ value ++ "\"];\n"))
        p.2 nodeID) p.2) st
    Except.ok (finishNode nodeID ctx.loopID ctx st')
  | Node.assignStmt lhs rhs =>
    match procAssign nodeID rhs lhs.enum st with
    | Except.error e => Except.error e
    | Except.ok st' => Except.ok (finishNode nodeID ctx.loopID ctx st')
  | Node.returnStmt results =>
    let values := results.map getValue
    let st1 := values.foldl (fun s v => addVar s v nodeID) st
    let st2 := addChunk st1
      ("  " ++ nodeID ++ " [label=\"Return: " ++ String.intercalate ", " values ++ "\"];\n")
    Except.ok (finishNode nodeID ctx.loopID ctx st2)
  | Node.exprStmt x =>
    let st' := match x with
      | Expr.binary a op b =>
        addChunk st ("  " ++ nodeID ++ " [label=\"" ++ getValue a ++ " " ++ op
          ++ " " ++ getValue b ++ "\"];\n")
      | Expr.call fn args =>
        let label := getValue fn ++ "(" ++ String.intercalate ", " (args.map getValue) ++ ")"
        addChunk st ("  " ++ nodeID ++ " [label=\"" ++ escQuotes label ++ "\"];\n")
      | e =>
        addChunk st ("  " ++ nodeID ++ " [label=\"(Unhandled Expr): " ++ exprTypeName e ++ "\"];\n")
    Except.ok (finishNode nodeID ctx.loopID ctx st')
  | Node.incDecStmt name tok =>
    let st' := addModified (addVar (addChunk st
      ("  " ++ nodeID ++ " [label=\"" ++ name ++ " " ++ tok ++ "\"];\n"))
      name nodeID) name
    Except.ok (finishNode nodeID ctx.loopID ctx st')
  | Node.binaryExpr x op y =>
    let st' := addControl (addControl (addChunk st
      ("  " ++ nodeID ++ " [label=\"" ++ getValue x ++ " " ++ op ++ " "
        ++ getValue y ++ "\"];\n")) (getValue x)) (getValue y)
    Except.ok (finishNode nodeID ctx.loopID ctx st')
  | Node.callExpr fn args =>
    let st' := addChunk st ("  " ++ nodeID ++ " [label=\"" ++ getValue fn ++ "("
      ++ String.intercalate ", " (args.map getValue) ++ ")\"];\n")
    Except.ok (finishNode nodeID ctx.loopID ctx st')
  | Node.selectorExpr x sel =>
    let st' := addChunk st ("  " ++ nodeID ++ " [label=\"" ++ getValue x ++ "."
      ++ sel ++ "\"];\n")
    Except.ok (finishNode nodeID ctx.loopID ctx st')
  | Node.parenExpr x =>
    let st' := match x with
      | Expr.binary a op b =>
        addChunk st ("  " ++ nodeID ++ " [label=\"" ++ getValue a ++ " " ++ op
          ++ " " ++ getValue b ++ "\"];\n")
      | e =>
        addChunk st ("  " ++ nodeID ++ " [label=\"" ++ getValue e ++ "\"];\n")
    Except.ok (finishNode nodeID ctx.loopID ctx st')
  | Node.ifStmt cond hasElse =>
    let st1 := addControl (addChunk st
      ("  " ++ nodeID ++ " [label=\"if " ++ getValue cond ++ "\"];\n")) (getValue cond)
    match blk.succs[0]? with
    | none => Except.error "index out of range"
    | some s0 =>
      match blockAt cg s0.index with
      | Except.error e => Except.error e
      | Except.ok b0 =>
        let thenID := "block_" ++ toString s0.index
        let st2 := addChunk st1 ("  " ++ nodeID ++ " -> " ++ thenID ++ " [label=\""
          ++ blockString b0 ++ "\" color=\"yellow\"];\n")
        if hasElse then
          match blk.succs[1]? with
          | none => Except.error "index out of range"
          | some s1 =>
            match blockAt cg s1.index with
            | Except.error e => Except.error e
            | Except.ok b1 =>
              let elseID := "block_" ++ toString s1.index
              let st3 := addChunk st2 ("  " ++ nodeID ++ " -> " ++ elseID ++ " [label=\""
                ++ blockString b1 ++ "\" color=\"red\"];\n")
              Except.ok (finishNode nodeID ctx.loopID ctx st3)
        else
          Except.ok (finishNode nodeID ctx.loopID ctx st2)
  | Node.forStmt cond =>
    let st1 := addControl (addChunk st
      ("  " ++ nodeID ++ " [label=\"for " ++ getValue cond ++ "\"];\n")) (getValue cond)
    match blk.succs[0]? with
    | none => Except.error "index out of range"
    | some s0 =>
      match blockAt cg s0.index with
      | Except.error e => Except.error e
      | Except.ok b0 =>
        let bodyID := "block_" ++ toString s0.index
        let st2 := addChunk st1 ("  " ++ nodeID ++ " -> " ++ bodyID ++ " [label=\""
          ++ blockString b0 ++ "\" color=\"yellow\"];\n")
        match blk.succs[1]? with
        | none => Except.error "index out of range"
        | some s1 =>
          match blockAt cg s1.index with
          | Except.error e => Except.error e
          | Except.ok b1 =>
            let postID := "block_" ++ toString s1.index
            let st3 := addChunk st2 ("  " ++ nodeID ++ " -> " ++ postID ++ " [label=\""
              ++ blockString b1 ++ "\" color=\"red\"];\n")
            Except.ok (finishNode nodeID nodeID ctx st3)
  | Node.branchStmt isBreak =>
    let word := if isBreak then "break" else "continue"
    let st1 := addChunk (addChunk st
      ("  " ++ nodeID ++ " [label=\"" ++ word ++ "\"];\n"))
      ("  " ++ nodeID ++ " -> " ++ ctx.loopID ++ " [label=\"" ++ word ++ "\"];\n")
    Except.ok (finishNode nodeID ctx.loopID ctx st1)
  | Node.other typeName =>
    let st' := addChunk st ("  " ++ nodeID ++ " [label=\"(Unhandled): " ++ typeName ++ "\"];\n")
    Except.ok (finishNode nodeID ctx.loopID ctx st')

/-- The node loop of one block (for i, node := range block.Nodes). -/
def procNodes (cg : CFG) (blk : Block) (blockID : String) :
    List Node → Nat → TState → BlockCtx → Except String (TState × BlockCtx)
  | [], _, st, ctx => Except.ok (st, ctx)
  | n :: rest, i, st, ctx =>
    match procNode cg blk blockID i n st ctx with
    | Except.error e => Except.error e
    | Except.ok r => procNodes cg blk blockID rest (i + 1) r.1 r.2

/-- The number of outgoing successor references summed over all blocks. -/
def totalSuccs (cg : CFG) : Nat :=
  (cg.blocks.map (fun b => b.succs.length)).sum

/-- The successor count of the block at an index, zero out of range. -/
def succCountAt (cg : CFG) (i : Nat) : Nat :=
  match cg.blocks[i]? with
  | some b => b.succs.length
  | none => 0

/-- Termination measure of the breadth-first lookahead loop: the queue
length plus the successor counts of the in-range block indices not yet
visited.  Every loop iteration strictly decreases it: popping an
already-visited index shortens the queue and enqueues nothing new at
the level of this measure, and popping an unvisited index removes its
successor count from the sum while enqueueing at most that many new
queue entries. -/
def lookPotential (cg : CFG) (queue visited : List Nat) : Nat :=
  queue.length +
    ∑ i ∈ (Finset.range cg.blocks.length).filter (fun x => x ∉ visited),
      succCountAt cg i

/-- Breadth-first lookahead over empty blocks (findNextBlockWithNodes).
The Go loop marks an index visited when it is popped and only enqueues
indices unvisited at enqueue time; a duplicate of an index can therefore
still be popped after the index is visited, and such a pop only
re-enqueues occurrences of indices that are already in the queue.  The
explicit guard on popping an already-visited index keeps the computed
result and the panic behavior unchanged while making lookPotential a
strictly decreasing measure of the loop.  The structural step budget
starts strictly above lookPotential and is therefore never exhausted;
this is proved below (findNextAux never returns the budget error). -/
def findNextAux (cg : CFG) : Nat → List Nat → List Nat → Except String (Option Block)
  | 0, _, _ => Except.error "lookahead step budget exhausted"
  | _ + 1, [], _ => Except.ok none
  | fuel + 1, current :: rest, visited =>
    if current ∈ visited then findNextAux cg fuel rest visited
    else
      match cg.blocks[current]? with
      | none => Except.error "index out of range"
      | some b =>
        if 0 < b.nodes.length then Except.ok (some b)
        else
          let visited' := current :: visited
          findNextAux cg fuel
            (rest ++ (b.succs.filter (fun s => decide (s.index ∉ visited'))).map
              (fun s => s.index))
            visited'

def findNextBlockWithNodes (cg : CFG) (startIndex : Nat) : Except String (Option Block) :=
  findNextAux cg (cg.blocks.length + totalSuccs cg + 2) [startIndex] []

/-- Substring occurrence test over character lists. -/
def infixAt : List Char → List Char → Bool
  | cs, pat =>
    match cs with
    | [] => pat.isEmpty
    | _ :: rest => pat.isPrefixOf cs || infixAt rest pat

/-- Decision-point test on a block summary (strings.Contains checks). -/
def containsSub (s pat : String) : Bool :=
  infixAt s.data pat.data

def isDecision (lbl : String) : Bool :=
  containsSub lbl "(IfDone)" || containsSub lbl "(IfThen)" || containsSub lbl "(For"

/-- One cross-block edge chunk, decorated when the target summary marks
a decision point. -/
def edgeFor (last first color lbl : String) : String :=
  if isDecision lbl then
    "  " ++ last ++ " -> " ++ first ++ " [color=\"" ++ color ++ "\" label=\""
      ++ lbl ++ "\" fontsize=14 decorate=true];\n"
  else
    "  " ++ last ++ " -> " ++ first ++ " [color=\"" ++ color ++ "\"];\n"

/-- The successor-edge emission for one successor of a block whose last
node id is nonempty: anchor at the first node of the successor, or, for
an empty successor, at the first node of the nearest statement-bearing
block, falling back to the block placeholder when none exists. -/
def succEdgeChunks (cg : CFG) (lastNodeID : String) (succ : SuccRef) :
    Except String (List String) :=
  let color := colorOf succ.kind
  match blockAt cg succ.index with
  | Except.error e => Except.error e
  | Except.ok succBlock =>
    if 0 < succBlock.nodes.length then
      let firstID := "block_" ++ toString succ.index ++ "_node_0"
      Except.ok [edgeFor lastNodeID firstID color (blockString succBlock)]
    else
      match findNextBlockWithNodes cg succ.index with
      | Except.error e => Except.error e
      | Except.ok (some b) =>
        let firstID := "block_" ++ toString b.index ++ "_node_0"
        Except.ok [edgeFor lastNodeID firstID color (blockString b)]
      | Except.ok none =>
        Except.ok ["  " ++ lastNodeID ++ " -> block_" ++ toString succ.index
          ++ " [color=\"" ++ color ++ "\"];\n"]

/-- The successor loop after the nodes of a block; skipped entirely when
the block emitted no node (lastNodeID empty). -/
def procSuccs (cg : CFG) (last : String) :
    List SuccRef → TState → Except String TState
  | [], st => Except.ok st
  | s :: rest, st =>
    if last == "" then procSuccs cg last rest st
    else
      match succEdgeChunks cg last s with
      | Except.error e => Except.error e
      | Except.ok cs => procSuccs cg last rest { st with chunks := st.chunks ++ cs }

/-- Processing of one block: skip dead blocks, run the node loop with
fresh per-block ids, then the successor loop. -/
def procBlock (cg : CFG) (st : TState) (blk : Block) : Except String TState :=
  if blk.live then
    let blockID := "block_" ++ toString blk.index
    match procNodes cg blk blockID blk.nodes 0 st ⟨"", "", ""⟩ with
    | Except.error e => Except.error e
    | Except.ok r => procSuccs cg r.2.lastNodeID blk.succs r.1
  else
    Except.ok st

/-- The block traversal of genDot: all blocks in slice order. -/
def traverse (cg : CFG) : Except String TState :=
  cg.blocks.foldlM (procBlock cg) emptyTState

/-- Dashed trace edges for one variable with at least two occurrences. -/
def tracePairs (k : String) (nodes : List String) : List String :=
  (nodes.zip nodes.tail).map (fun p =>
    "  " ++ p.1 ++ " -> " ++ p.2 ++ " [label=\"" ++ k
      ++ "\" style=dotted fontsize=26];\n")

/-- The final trace-edge loop over the variables map; order is the map
iteration order, supplied explicitly. -/
def traceEdges (vars : List (String × List String)) (order : List String) :
    List String :=
  order.foldl (fun acc k =>
    match vars.find? (fun p => p.1 == k) with
    | some p => if 1 < p.2.length then acc ++ tracePairs k p.2 else acc
    | none => acc) []

/-- Step 1 of the Chepin reconciliation: every controlVars key is
deleted from inputVars. -/
def inputAfterControl (input : List (String × Nat)) (control : List String) :
    List (String × Nat) :=
  input.filter (fun p => decide (p.1 ∉ control))

/-- Step 1 of the Chepin reconciliation: every controlVars key is
deleted from modifiedVars. -/
def modifiedAfterControl (modified control : List String) : List String :=
  modified.filter (fun k => decide (k ∉ control))

/-- Step 2: every remaining modifiedVars key is deleted from inputVars. -/
def inputAfterModified (input : List (String × Nat)) (modified control : List String) :
    List (String × Nat) :=
  (inputAfterControl input control).filter
    (fun p => decide (p.1 ∉ modifiedAfterControl modified control))

/-- Step 3: every remaining inputVars key with exactly one recorded
occurrence moves into unusedVars. -/
def unusedFinal (input : List (String × Nat)) (modified control : List String) :
    List String :=
  ((inputAfterModified input modified control).filter (fun p => p.2 == 1)).map Prod.fst

/-- The inputVars map after all three reconciliation steps. -/
def inputFinal (input : List (String × Nat)) (modified control : List String) :
    List (String × Nat) :=
  (inputAfterModified input modified control).filter (fun p => !(p.2 == 1))

/-- The Chepin score Q = P + 2M + 3C + 0.5T computed over the
reconciled maps, with P, M, C, T the map sizes. -/
def chepinQ (input : List (String × Nat)) (modified control : List String) : ℚ :=
  ((inputFinal input modified control).length : ℚ)
    + 2 * ((modifiedAfterControl modified control).length : ℚ)
    + 3 * (control.length : ℚ)
    + (1 / 2 : ℚ) * ((unusedFinal input modified control).length : ℚ)

/-- The cyclomatic computation of genDot: count live blocks and their
outgoing successors in one pass, then E - N + 2 (Go int arithmetic,
modelled on Int). -/
def cyclomaticComplexity (cg : CFG) : Int :=
  let counts := cg.blocks.foldl
    (fun (p : Nat × Nat) b => if b.live then (p.1 + b.succs.length, p.2 + 1) else p)
    (0, 0)
  (counts.1 : Int) - (counts.2 : Int) + 2

/-- Regex replacement of genDot: the pattern matches a literal
label-quote-block prefix, one or more digits, a space, one or more
non-quote characters (captured) and a closing quote; with these
anchors the greedy match is deterministic.  Returns the captured
group and the rest of the input after the match. -/
def tryPat (cs : List Char) : Option (List Char × List Char) :=
  let pre := "label=\"block ".data
  if pre.isPrefixOf cs then
    let cs1 := cs.drop pre.length
    let ds := cs1.takeWhile Char.isDigit
    let cs2 := cs1.dropWhile Char.isDigit
    if ds.isEmpty then none
    else
      match cs2 with
      | ' ' :: cs3 =>
        let cap := cs3.takeWhile (fun c => c ≠ '"')
        let cs4 := cs3.dropWhile (fun c => c ≠ '"')
        if cap.isEmpty then none
        else
          match cs4 with
          | '"' :: cs5 => some (cap, cs5)
          | _ => none
      | _ => none
  else none

/-- Leftmost, non-overlapping replacement over the character list.  The
fuel starts at the length of the list; every step consumes at least one
character, so the fuel never runs out on the initial call. -/
def relabelAux : Nat → List Char → List Char
  | 0, cs => cs
  | _ + 1, [] => []
  | fuel + 1, c :: rest =>
    match tryPat (c :: rest) with
    | some (cap, after) =>
      "label=\"".data ++ cap ++ '"' :: relabelAux fuel after
    | none => c :: relabelAux fuel rest

/-- The cleanup pass re.ReplaceAllString stripping block-number prefixes
from edge labels. -/
def relabel (s : String) : String :=
  String.mk (relabelAux s.data.length s.data)

/-- The full genDot: traversal, trace edges, cleanup pass, wrapper; and
the two scores.  traceOrder is the iteration order of the variables
map in the final loop. -/
def genDot (cg : CFG) (traceOrder : List String) :
    Except String (String × ℚ × Int) :=
  match traverse cg with
  | Except.error e => Except.error e
  | Except.ok st =>
    let body := "digraph G \x7b\n" ++ String.join st.chunks
      ++ String.join (traceEdges st.varTrace traceOrder)
    let doc := relabel body ++ "\x7d\n"
    Except.ok (doc, chepinQ st.inputVars st.modifiedVars st.controlVars,
      cyclomaticComplexity cg)


/-- Result extractors used to state concrete facts about runs. -/
def resultOk {α : Type} : Except String α → Bool
  | Except.ok _ => true
  | Except.error _ => false

def docOf : Except String (String × ℚ × Int) → String
  | Except.ok r => r.1
  | Except.error e => e

def qOf : Except String (String × ℚ × Int) → ℚ
  | Except.ok r => r.2.1
  | Except.error _ => 0

def cycOf : Except String (String × ℚ × Int) → Int
  | Except.ok r => r.2.2
  | Except.error _ => 0

/-- The two scores of a run, forgetting the rendered document. -/
def scoresOf (e : Except String (String × ℚ × Int)) : Except String (ℚ × Int) :=
  Except.map Prod.snd e

def ctlOf : Except String TState → List String
  | Except.ok st => st.controlVars
  | Except.error _ => []

def chunksOf : Except String TState → List String
  | Except.ok st => st.chunks
  | Except.error _ => []

def varKeysOf : Except String TState → List String
  | Except.ok st => st.varTrace.map Prod.fst
  | Except.error _ => []

def stOf2 : Except String (TState × BlockCtx) → TState
  | Except.ok p => p.1
  | Except.error _ => emptyTState

def ctxOf2 : Except String (TState × BlockCtx) → BlockCtx
  | Except.ok p => p.2
  | Except.error _ => ⟨"", "", ""⟩

/-- The recorded occurrence count of a variable in the occurrence map. -/
def countIn (input : List (String × Nat)) (k : String) : Nat :=
  match input.find? (fun p => p.1 == k) with
  | some p => p.2
  | none => 0

/-- Spec-side reconciled control set, following the claim wording. -/
def specControlSet (control : List String) : Finset String :=
  control.toFinset

/-- Spec-side reconciled modified set, following the claim wording:
every controlSet member is removed from modifiedSet. -/
def specModifiedSet (modified control : List String) : Finset String :=
  modified.toFinset \ control.toFinset

/-- Spec-side input set after the two removal steps, following the
claim wording: controlSet members are removed first, then the
remaining modifiedSet members. -/
def specInputReconciled (input : List (String × Nat)) (modified control : List String) :
    Finset String :=
  ((input.map Prod.fst).toFinset \ control.toFinset) \ specModifiedSet modified control

/-- Spec-side unused set, following the claim wording: variables
remaining in inputSet with exactly one recorded occurrence. -/
def specUnusedSet (input : List (String × Nat)) (modified control : List String) :
    Finset String :=
  (specInputReconciled input modified control).filter (fun k => countIn input k = 1)

/-- Spec-side final input set, following the claim wording: the
reconciled input set minus the unused variables. -/
def specInputSet (input : List (String × Nat)) (modified control : List String) :
    Finset String :=
  (specInputReconciled input modified control).filter (fun k => countIn input k ≠ 1)

/-- The live blocks of a graph. -/
def liveBlocks (cg : CFG) : List Block :=
  cg.blocks.filter (fun b => b.live)

/-- Spec-side edge count: total outgoing successor count over live blocks. -/
def liveEdgeCount (cg : CFG) : Nat :=
  ((liveBlocks cg).map (fun b => b.succs.length)).sum

/-- Spec-side node count: number of live blocks. -/
def liveBlockCount (cg : CFG) : Nat :=
  (liveBlocks cg).length

/-- A live subgraph with no branches and no loops: every live block has
at most one outgoing successor and exactly one live block is a sink. -/
def straightLine (cg : CFG) : Prop :=
  (∀ b ∈ liveBlocks cg, b.succs.length ≤ 1) ∧
    (liveBlocks cg).countP (fun b => b.succs.length == 0) = 1

/-- The update a single node applies to the per-block loop identifier:
a for statement records its own node id, every other node leaves the
identifier unchanged. -/
def loopTokenOf (blockID : String) (i : Nat) (cur : String) : Node → String
  | Node.forStmt _ => nodeIDOf blockID i
  | _ => cur

/-- The loop identifier as maintained by the per-block node loop: the
node id of the most recent for statement seen so far in this block,
starting from the given value. -/
def loopIDFrom (blockID : String) : Nat → String → List Node → String
  | _, cur, [] => cur
  | i, cur, n :: rest => loopIDFrom blockID (i + 1) (loopTokenOf blockID i cur n) rest

/-- Well-formedness of a graph as produced by the external CFG builder:
every successor reference points at a block of the graph. -/
def WFcfg (cg : CFG) : Prop :=
  ∀ b ∈ cg.blocks, ∀ s ∈ b.succs, s.index < cg.blocks.length

/-- Scenario graph for the body a=0, b=1, if n lt 2 return n, shaped as
the external builder delivers it: the condition is a bare binary
expression node ending the entry block. -/
def cfgScenario : CFG := ⟨[
  ⟨0, BKind.body,
    [Node.assignStmt [Lhs.ident "a"] [Expr.basicLit "0"],
     Node.assignStmt [Lhs.ident "b"] [Expr.basicLit "1"],
     Node.binaryExpr (Expr.ident "n") "<" (Expr.basicLit "2")],
    [⟨1, BKind.ifThen⟩, ⟨2, BKind.ifDone⟩], true⟩,
  ⟨1, BKind.ifThen, [Node.returnStmt [Expr.ident "n"]], [⟨2, BKind.ifDone⟩], true⟩,
  ⟨2, BKind.ifDone, [], [], true⟩]⟩

/-- An empty function body: one live block, no statements, no successors. -/
def emptyBodyCFG : CFG := ⟨[⟨0, BKind.body, [], [], true⟩]⟩

/-- One block with two variables that each have two recorded
occurrences, so the trace-edge loop iterates a two-key map. -/
def cfgTwoTraces : CFG := ⟨[
  ⟨0, BKind.body,
    [Node.assignStmt [Lhs.ident "a"] [Expr.basicLit "1"],
     Node.assignStmt [Lhs.ident "a"] [Expr.basicLit "2"],
     Node.assignStmt [Lhs.ident "b"] [Expr.basicLit "3"],
     Node.assignStmt [Lhs.ident "b"] [Expr.basicLit "4"]],
    [], true⟩]⟩

def lcBlk0 : Block :=
  ⟨0, BKind.body, [Node.forStmt (Expr.binary (Expr.ident "i") "<" (Expr.ident "n"))],
    [⟨1, BKind.forBody⟩, ⟨2, BKind.forDone⟩], true⟩

def lcBlk1 : Block :=
  ⟨1, BKind.forBody, [Node.branchStmt false], [⟨0, BKind.body⟩], true⟩

/-- A loop whose body block contains a continue statement; the for node
and the continue live in different blocks. -/
def cfgLoopContinue : CFG := ⟨[lcBlk0, lcBlk1, ⟨2, BKind.forDone, [], [], true⟩]⟩

/-- A block holding an if statement but no successor references. -/
def cfgMalformedIf : CFG :=
  ⟨[⟨0, BKind.body, [Node.ifStmt (Expr.ident "x") false], [], true⟩]⟩

def cycBlk0 : Block := ⟨0, BKind.body, [], [⟨1, BKind.body⟩], true⟩

/-- A cyclic graph of two statement-free blocks. -/
def cfgCycle : CFG := ⟨[cycBlk0, ⟨1, BKind.body, [], [⟨0, BKind.body⟩], true⟩]⟩

/-- A two-block straight-line graph. -/
def cfgChain : CFG := ⟨[
  ⟨0, BKind.body, [], [⟨1, BKind.body⟩], true⟩,
  ⟨1, BKind.body, [], [], true⟩]⟩


theorem cycloFold (l : List Block) : ∀ a b : Nat,
    l.foldl (fun (p : Nat × Nat) b' =>
        if b'.live then (p.1 + b'.succs.length, p.2 + 1) else p) (a, b)
      = (a + ((l.filter (fun x => x.live)).map (fun x => x.succs.length)).sum,
         b + (l.filter (fun x => x.live)).length) := by
  induction l with
  | nil => intro a b; simp
  | cons hd tl ih =>
    intro a b
    by_cases hl : hd.live <;>
      simp [List.filter_cons, hl, ih, Prod.ext_iff] <;> omega

theorem sumSuccsCount (l : List Block) (h1 : ∀ b ∈ l, b.succs.length ≤ 1) :
    (l.map (fun b => b.succs.length)).sum
      + l.countP (fun b => b.succs.length == 0) = l.length := by
  induction l with
  | nil => simp
  | cons hd tl ih =>
    have hhd := h1 hd (List.mem_cons_self hd tl)
    have htl := ih (fun b hb => h1 b (List.mem_cons_of_mem hd hb))
    rcases Nat.le_one_iff_eq_zero_or_eq_one.mp hhd with h0 | h1'
    · simp [List.countP_cons, h0] at htl ⊢
      omega
    · simp [List.countP_cons, h1'] at htl ⊢
      omega

/-- Claim C2: for every input CFG the returned cyclomatic complexity is
E minus N plus 2 with E the total outgoing successor count over live
blocks and N the live block count; and every graph whose live subgraph
has no branches or loops scores exactly 1. -/
theorem cyclomatic_is_E_minus_N_plus_2 :
    (∀ cg : CFG, cyclomaticComplexity cg
        = (liveEdgeCount cg : Int) - (liveBlockCount cg : Int) + 2)
    ∧ (∀ cg : CFG, straightLine cg → cyclomaticComplexity cg = 1) := by
  have part1 : ∀ cg : CFG, cyclomaticComplexity cg
      = (liveEdgeCount cg : Int) - (liveBlockCount cg : Int) + 2 := by
    intro cg
    unfold cyclomaticComplexity
    rw [cycloFold]
    simp [liveEdgeCount, liveBlockCount, liveBlocks]
  refine ⟨part1, ?_⟩
  intro cg hsl
  obtain ⟨h1, h2⟩ := hsl
  have key := sumSuccsCount (liveBlocks cg) h1
  rw [h2] at key
  have hE : liveEdgeCount cg + 1 = liveBlockCount cg := key
  rw [part1 cg]
  omega

/-- Witness for C2: a two-block straight-line graph satisfies the
hypothesis and scores 1. -/
theorem cyclomatic_is_E_minus_N_plus_2_witness :
    straightLine cfgChain ∧ cyclomaticComplexity cfgChain = 1 := by
  have hsl : straightLine cfgChain := ⟨by decide, by decide⟩
  exact ⟨hsl, cyclomatic_is_E_minus_N_plus_2.2 cfgChain hsl⟩

theorem mem_modifiedAfterControl (k : String) (modified control : List String) :
    k ∈ modifiedAfterControl modified control ↔ k ∈ modified ∧ k ∉ control := by
  simp [modifiedAfterControl, List.mem_filter]

theorem mem_inputFinal (p : String × Nat) (input : List (String × Nat))
    (modified control : List String) :
    p ∈ inputFinal input modified control ↔
      p ∈ input ∧ p.1 ∉ control
        ∧ p.1 ∉ modifiedAfterControl modified control ∧ p.2 ≠ 1 := by
  simp [inputFinal, inputAfterModified, inputAfterControl, List.mem_filter, and_assoc]
  tauto

/-- Claim C3: after the fixed-precedence reconciliation the three named
role sets are pairwise disjoint, for every traversal state and hence
for every input CFG. -/
theorem role_sets_pairwise_disjoint :
    ∀ (input : List (String × Nat)) (modified control : List String),
      ((inputFinal input modified control).map Prod.fst).toFinset ∩ control.toFinset = ∅
      ∧ (modifiedAfterControl modified control).toFinset ∩ control.toFinset = ∅
      ∧ ((inputFinal input modified control).map Prod.fst).toFinset
          ∩ (modifiedAfterControl modified control).toFinset = ∅ := by
  intro input modified control
  refine ⟨?_, ?_, ?_⟩
  · ext k
    simp only [Finset.mem_inter, List.mem_toFinset, List.mem_map,
      Finset.not_mem_empty, iff_false, not_and]
    rintro ⟨p, hp, rfl⟩ hk
    exact ((mem_inputFinal p input modified control).1 hp).2.1 hk
  · ext k
    simp only [Finset.mem_inter, List.mem_toFinset,
      Finset.not_mem_empty, iff_false, not_and]
    intro hm hk
    exact ((mem_modifiedAfterControl k modified control).1 hm).2 hk
  · ext k
    simp only [Finset.mem_inter, List.mem_toFinset, List.mem_map,
      Finset.not_mem_empty, iff_false, not_and]
    rintro ⟨p, hp, rfl⟩ hm
    exact ((mem_inputFinal p input modified control).1 hp).2.2.1 hm

theorem procAssign_filterMap (nodeID : String) (rhs : List Expr)
    (entries : List (Nat × Lhs)) (st : TState) :
    procAssign nodeID rhs entries st
      = procAssignIdents nodeID rhs (entries.filterMap identOf) st := by
  induction entries generalizing st with
  | nil => rfl
  | cons hd tl ih =>
    obtain ⟨j, l⟩ := hd
    cases l with
    | nonIdent t => simp [procAssign, identOf, List.filterMap_cons, ih]
    | ident name =>
      simp only [procAssign, procAssignIdents, List.filterMap_cons, identOf]
      cases hj : rhs[j]? with
      | none => simp [hj]
      | some e => cases e <;> simp [hj, ih]

/-- Claim C10: processing an assignment statement is exactly the
processing of its identifier left-hand sides at their original indices,
so a non-identifier left-hand side contributes no label chunk, no trace
entry and no role-set membership, while identifier left-hand sides of
the same statement are processed normally. -/
theorem nonident_lhs_skipped :
    (∀ (cg : CFG) (blk : Block) (blockID : String) (i : Nat) (lhs : List Lhs)
        (rhs : List Expr) (st : TState) (ctx : BlockCtx),
      procNode cg blk blockID i (Node.assignStmt lhs rhs) st ctx
        = (procAssignIdents (nodeIDOf blockID i) rhs (identEntries lhs) st).map
            (finishNode (nodeIDOf blockID i) ctx.loopID ctx))
    ∧ (∀ (nodeID : String) (rhs : List Expr) (j : Nat) (t : String)
        (rest : List (Nat × Lhs)) (st : TState),
      procAssign nodeID rhs ((j, Lhs.nonIdent t) :: rest) st
        = procAssign nodeID rhs rest st) := by
  constructor
  · intro cg blk blockID i lhs rhs st ctx
    simp only [procNode, identEntries]
    rw [procAssign_filterMap]
    cases procAssignIdents (nodeIDOf blockID i) rhs (lhs.enum.filterMap identOf) st <;> rfl
  · intro nodeID rhs j t rest st
    rfl

/-- Claim C7 amended: the Chepin and cyclomatic scores of a run do not
depend on the iteration order of the variable-trace map, while the
rendered document may. -/
theorem scores_deterministic_across_orders :
    ∀ (cg : CFG) (o1 o2 : List String),
      scoresOf (genDot cg o1) = scoresOf (genDot cg o2) := by
  intro cg o1 o2
  unfold genDot
  cases traverse cg <;> rfl

set_option maxRecDepth 10000 in
/-- Counterexample for C7: on a graph whose trace map has two keys, the
two key orders are both enumerations of the same map, yet the rendered
documents differ byte-wise. -/
theorem render_not_byte_identical :
    varKeysOf (traverse cfgTwoTraces) = ["a", "b"]
    ∧ docOf (genDot cfgTwoTraces ["a", "b"]) ≠ docOf (genDot cfgTwoTraces ["b", "a"]) := by
  decide

/-- Claim C9 amended: an empty function body renders as the bare graph
wrapper with no node or edge statements, the Chepin score is 0, the run
succeeds, and the cyclomatic complexity is 1 (0 - 1 + 2). -/
theorem empty_body_render_and_cyclomatic :
    docOf (genDot emptyBodyCFG []) = "digraph G \x7b\n\x7d\n"
    ∧ cycOf (genDot emptyBodyCFG []) = 1
    ∧ qOf (genDot emptyBodyCFG []) = 0
    ∧ resultOk (genDot emptyBodyCFG []) = true := by
  have htr : traverse emptyBodyCFG = Except.ok emptyTState := rfl
  refine ⟨by decide, by decide, ?_, by decide⟩
  simp [genDot, qOf, htr, chepinQ, inputFinal, inputAfterModified, inputAfterControl,
    modifiedAfterControl, unusedFinal, emptyTState]

/-- Counterexample for C9: the empty body run succeeds and its
cyclomatic complexity is not 2. -/
theorem empty_body_cyclomatic_not_two :
    resultOk (genDot emptyBodyCFG []) = true
    ∧ cycOf (genDot emptyBodyCFG []) ≠ 2 := by decide

/-- Claim C6 amended: a node of unrecognized kind always yields the
diagnostic fallback label and never fails, but an if node whose block
has fewer successors than its branches expect aborts the whole
traversal with an index-out-of-range error instead of only skipping
that edge. -/
theorem fallback_label_but_malformed_aborts :
    (∀ (cg : CFG) (blk : Block) (blockID : String) (i : Nat) (t : String)
        (st : TState) (ctx : BlockCtx),
      procNode cg blk blockID i (Node.other t) st ctx
        = Except.ok (finishNode (nodeIDOf blockID i) ctx.loopID ctx
            (addChunk st ("  " ++ nodeIDOf blockID i ++ " [label=\"(Unhandled): "
              ++ t ++ "\"];\n"))))
    ∧ resultOk (genDot cfgMalformedIf []) = false :=
  ⟨fun _ _ _ _ _ _ _ => rfl, by decide⟩

/-- Counterexample for C6: on a block holding an if statement with no
successors, the whole run aborts with the index-out-of-range panic and
produces no document at all. -/
theorem malformed_if_aborts_traversal :
    resultOk (genDot cfgMalformedIf []) = false
    ∧ docOf (genDot cfgMalformedIf []) = "index out of range" := by decide

/-- Counterexample for C5: the scenario run succeeds and its control
set is the two-element set of both operand strings, which differs from
the singleton n since the literal 2 is also recorded. -/
theorem scenario_control_set_counterexample :
    resultOk (traverse cfgScenario) = true
    ∧ ctlOf (traverse cfgScenario) = ["n", "2"]
    ∧ ("2" : String) ≠ "n" := by decide

theorem self_mem_listInsert (s : List String) (k : String) : k ∈ listInsert s k := by
  by_cases h : k ∈ s <;> simp [listInsert, h]

theorem mem_listInsert_of_mem {s : List String} {k : String} (k2 : String) (h : k ∈ s) :
    k ∈ listInsert s k2 := by
  by_cases h2 : k2 ∈ s <;> simp [listInsert, h2, h]

theorem controlVars_finishNode (nodeID loopNew : String) (ctx : BlockCtx) (st : TState) :
    (finishNode nodeID loopNew ctx st).1.controlVars = st.controlVars := by
  unfold finishNode
  split <;> rfl

/-- Claim C5 amended: for the scenario body the control set is exactly
the pair n, 2, and in general both operands of a bare binary test node
are recorded into the control set. -/
theorem scenario_control_set_both_operands :
    ctlOf (traverse cfgScenario) = ["n", "2"]
    ∧ (∀ (cg : CFG) (blk : Block) (blockID : String) (i : Nat) (x : Expr)
        (op : String) (y : Expr) (st : TState) (ctx : BlockCtx),
      resultOk (procNode cg blk blockID i (Node.binaryExpr x op y) st ctx) = true
      ∧ getValue x ∈
          (stOf2 (procNode cg blk blockID i (Node.binaryExpr x op y) st ctx)).controlVars
      ∧ getValue y ∈
          (stOf2 (procNode cg blk blockID i (Node.binaryExpr x op y) st ctx)).controlVars) := by
  refine ⟨by decide, ?_⟩
  intro cg blk blockID i x op y st ctx
  refine ⟨rfl, ?_, ?_⟩ <;>
    simp only [procNode, stOf2, controlVars_finishNode, addControl]
  · exact mem_listInsert_of_mem _ (self_mem_listInsert _ _)
  · exact self_mem_listInsert _ _


theorem loopID_procNode (cg : CFG) (blk : Block) (blockID : String) (i : Nat)
    (n : Node) (st : TState) (ctx : BlockCtx) (r : TState × BlockCtx)
    (h : procNode cg blk blockID i n st ctx = Except.ok r) :
    r.2.loopID = loopTokenOf blockID i ctx.loopID n := by
  cases n <;> simp only [procNode] at h
  all_goals repeat' split at h
  all_goals
    first
      | exact Except.noConfusion h
      | (injection h with h2; subst h2; rfl)

theorem loopID_procNodes (cg : CFG) (blk : Block) (blockID : String) :
    ∀ (nodes : List Node) (i : Nat) (st : TState) (ctx : BlockCtx)
      (r : TState × BlockCtx),
      procNodes cg blk blockID nodes i st ctx = Except.ok r →
      r.2.loopID = loopIDFrom blockID i ctx.loopID nodes := by
  intro nodes
  induction nodes with
  | nil =>
    intro i st ctx r h
    simp only [procNodes] at h
    injection h with h2
    subst h2
    rfl
  | cons n rest ih =>
    intro i st ctx r h
    simp only [procNodes] at h
    cases hn : procNode cg blk blockID i n st ctx with
    | error e =>
      simp only [hn] at h
      exact Except.noConfusion h
    | ok r1 =>
      simp only [hn] at h
      have hl := loopID_procNode cg blk blockID i n st ctx r1 hn
      have hrest := ih (i + 1) r1.1 r1.2 r h
      rw [hrest, hl]
      rfl

/-- Claim C4 amended: the loop identifier that break and continue edges
target is the most recently classified for node of the current block
only (it is reset to the empty string at each block), and a branch
statement always emits its edge to that per-block identifier. -/
theorem branch_edges_target_block_local_loop :
    (∀ (cg : CFG) (blk : Block) (blockID : String) (nodes : List Node) (i : Nat)
        (st : TState) (ctx : BlockCtx) (r : TState × BlockCtx),
      procNodes cg blk blockID nodes i st ctx = Except.ok r →
      r.2.loopID = loopIDFrom blockID i ctx.loopID nodes)
    ∧ (∀ (cg : CFG) (blk : Block) (blockID : String) (i : Nat) (isBreak : Bool)
        (st : TState) (ctx : BlockCtx),
      procNode cg blk blockID i (Node.branchStmt isBreak) st ctx
        = Except.ok (finishNode (nodeIDOf blockID i) ctx.loopID ctx
            (addChunk (addChunk st
              ("  " ++ nodeIDOf blockID i ++ " [label=\""
                ++ (if isBreak then "break" else "continue") ++ "\"];\n"))
              ("  " ++ nodeIDOf blockID i ++ " -> " ++ ctx.loopID ++ " [label=\""
                ++ (if isBreak then "break" else "continue") ++ "\"];\n")))) :=
  ⟨fun cg blk blockID => loopID_procNodes cg blk blockID,
   fun _ _ _ _ _ _ _ => rfl⟩

/-- Witness for C4: processing the loop-body block of the concrete
graph succeeds, and its final loop identifier is the one computed by
the block-local fold, which is empty because no for node precedes the
continue in that block. -/
theorem branch_edges_target_block_local_loop_witness :
    resultOk (procNodes cfgLoopContinue lcBlk1 "block_1" lcBlk1.nodes 0
        emptyTState ⟨"", "", ""⟩) = true
    ∧ (ctxOf2 (procNodes cfgLoopContinue lcBlk1 "block_1" lcBlk1.nodes 0
        emptyTState ⟨"", "", ""⟩)).loopID
        = loopIDFrom "block_1" 0 "" lcBlk1.nodes :=
  ⟨rfl, branch_edges_target_block_local_loop.1 cfgLoopContinue lcBlk1 "block_1"
    lcBlk1.nodes 0 emptyTState ⟨"", "", ""⟩ _ rfl⟩

/-- Counterexample for C4: in the concrete loop graph the continue edge
is emitted with an empty target, not with the for node of the previous
block as target. -/
theorem continue_edge_counterexample :
    resultOk (traverse cfgLoopContinue) = true
    ∧ "  block_1_node_0 ->  [label=\"continue\"];\n" ∈ chunksOf (traverse cfgLoopContinue)
    ∧ "  block_1_node_0 -> block_0_node_0 [label=\"continue\"];\n"
        ∉ chunksOf (traverse cfgLoopContinue) := by decide

theorem filter_cons_visited (n current : Nat) (visited : List Nat) :
    (Finset.range n).filter (fun x => x ∉ current :: visited)
      = ((Finset.range n).filter (fun x => x ∉ visited)).erase current := by
  ext x
  simp only [Finset.mem_filter, Finset.mem_range, Finset.mem_erase, List.mem_cons,
    not_or]
  tauto

theorem lookPotential_cons_visited (cg : CFG) (current : Nat) (rest visited : List Nat)
    (h : current ∈ visited) :
    lookPotential cg rest visited + 1 = lookPotential cg (current :: rest) visited := by
  simp [lookPotential, List.length_cons]
  omega

theorem lookPotential_step (cg : CFG) (current : Nat) (rest visited : List Nat)
    (b : Block) (hb : cg.blocks[current]? = some b) (hnv : current ∉ visited) :
    lookPotential cg
        (rest ++ ((b.succs.filter
          (fun s => decide (s.index ∉ current :: visited))).map (fun s => s.index)))
        (current :: visited) + 1
      ≤ lookPotential cg (current :: rest) visited := by
  have hcur : current < cg.blocks.length := by
    by_contra hge
    rw [List.getElem?_eq_none (by omega)] at hb
    exact Option.noConfusion hb
  have hmem : current ∈ (Finset.range cg.blocks.length).filter
      (fun x => x ∉ visited) := by
    simp [hcur, hnv]
  have hsum := Finset.sum_erase_add
    ((Finset.range cg.blocks.length).filter (fun x => x ∉ visited))
    (succCountAt cg) hmem
  have hadds : ((b.succs.filter
      (fun s => decide (s.index ∉ current :: visited))).map (fun s => s.index)).length
      ≤ succCountAt cg current := by
    rw [List.length_map]
    calc (b.succs.filter (fun s => decide (s.index ∉ current :: visited))).length
        ≤ b.succs.length := List.length_filter_le _ _
      _ = succCountAt cg current := by simp [succCountAt, hb]
  unfold lookPotential
  rw [filter_cons_visited]
  simp only [List.length_append, List.length_cons]
  omega

theorem findNextAux_fuel_irrelevant (cg : CFG) :
    ∀ (fuel1 fuel2 : Nat) (queue visited : List Nat),
      lookPotential cg queue visited < fuel1 →
      lookPotential cg queue visited < fuel2 →
      findNextAux cg fuel1 queue visited = findNextAux cg fuel2 queue visited := by
  intro fuel1
  induction fuel1 with
  | zero => intro fuel2 queue visited h1; omega
  | succ f ih =>
    intro fuel2 queue visited h1 h2
    cases fuel2 with
    | zero => omega
    | succ g =>
      cases queue with
      | nil => rfl
      | cons current rest =>
        by_cases hv : current ∈ visited
        · simp only [findNextAux, hv, if_pos]
          have hp := lookPotential_cons_visited cg current rest visited hv
          exact ih g rest visited (by omega) (by omega)
        · simp only [findNextAux, hv, if_neg, not_false_iff]
          cases hb : cg.blocks[current]? with
          | none => rfl
          | some b =>
            by_cases hn : 0 < b.nodes.length
            · simp [hn]
            · simp only [hn, if_neg, not_false_iff]
              have hp := lookPotential_step cg current rest visited b hb hv
              exact ih g _ _ (by omega) (by omega)

theorem findNextAux_ok (cg : CFG) (hwf : WFcfg cg) :
    ∀ (fuel : Nat) (queue visited : List Nat),
      lookPotential cg queue visited < fuel →
      (∀ q ∈ queue, q < cg.blocks.length) →
      ∃ r, findNextAux cg fuel queue visited = Except.ok r := by
  intro fuel
  induction fuel with
  | zero => intro queue visited h1; omega
  | succ f ih =>
    intro queue visited h1 hq
    cases queue with
    | nil => exact ⟨none, rfl⟩
    | cons current rest =>
      by_cases hv : current ∈ visited
      · have hp := lookPotential_cons_visited cg current rest visited hv
        have := ih rest visited (by omega) (fun q hq2 => hq q (List.mem_cons_of_mem _ hq2))
        simpa [findNextAux, hv] using this
      · have hcur : current < cg.blocks.length := hq current (List.mem_cons_self _ _)
        cases hb : cg.blocks[current]? with
        | none =>
          rw [List.getElem?_eq_none_iff] at hb
          omega
        | some b =>
          by_cases hn : 0 < b.nodes.length
          · exact ⟨some b, by simp [findNextAux, hv, hb, hn]⟩
          · have hbmem : b ∈ cg.blocks := List.getElem?_mem hb
            have hp := lookPotential_step cg current rest visited b hb hv
            have hq2 : ∀ q ∈ rest ++ ((b.succs.filter
                (fun s => decide (s.index ∉ current :: visited))).map
                (fun s => s.index)), q < cg.blocks.length := by
              intro q hqm
              rcases List.mem_append.mp hqm with hqr | hqs
              · exact hq q (List.mem_cons_of_mem _ hqr)
              · obtain ⟨sr, hsr, rfl⟩ := List.mem_map.mp hqs
                exact hwf b hbmem sr (List.mem_of_mem_filter hsr)
            have := ih (rest ++ ((b.succs.filter
                (fun s => decide (s.index ∉ current :: visited))).map
                (fun s => s.index))) (current :: visited) (by omega) hq2
            simpa [findNextAux, hv, hb, hn] using this

theorem sum_succCountAt (cg : CFG) :
    (∑ i ∈ Finset.range cg.blocks.length, succCountAt cg i) = totalSuccs cg := by
  obtain ⟨l⟩ := cg
  show (∑ i ∈ Finset.range l.length,
      (match l[i]? with | some b => b.succs.length | none => 0)) = _
  unfold totalSuccs
  induction l with
  | nil => simp
  | cons hd tl ih =>
    rw [List.length_cons, Finset.sum_range_succ']
    simp only [List.getElem?_cons_succ, List.getElem?_cons_zero]
    simp [ih]
    omega

/-- Claim C8: the empty-block lookahead always terminates (a strictly
larger step budget computes the same result, and the chosen budget
strictly exceeds the decreasing loop measure), it never errors on a
well-formed graph, cyclic or not, and when no statement-bearing block
is reachable the cross-block edge falls back to the successor block
placeholder. -/
theorem lookahead_terminates_with_fallback :
    (∀ (cg : CFG) (extra startIndex : Nat),
      findNextAux cg (cg.blocks.length + totalSuccs cg + 2 + extra) [startIndex] []
        = findNextBlockWithNodes cg startIndex)
    ∧ (∀ cg : CFG, WFcfg cg → ∀ s : Nat, s < cg.blocks.length →
        ∃ r, findNextBlockWithNodes cg s = Except.ok r)
    ∧ (∀ (cg : CFG) (last : String) (succ : SuccRef) (sb : Block),
        blockAt cg succ.index = Except.ok sb → sb.nodes = [] →
        findNextBlockWithNodes cg succ.index = Except.ok none →
        succEdgeChunks cg last succ = Except.ok
          ["  " ++ last ++ " -> block_" ++ toString succ.index
            ++ " [color=\"" ++ colorOf succ.kind ++ "\"];\n"]) := by
  have hpot : ∀ (cg : CFG) (startIndex : Nat),
      lookPotential cg [startIndex] [] < cg.blocks.length + totalSuccs cg + 2 := by
    intro cg startIndex
    unfold lookPotential
    have : ((Finset.range cg.blocks.length).filter (fun x => x ∉ ([] : List Nat)))
        = Finset.range cg.blocks.length := by
      simp
    rw [this, sum_succCountAt]
    simp
    omega
  refine ⟨?_, ?_, ?_⟩
  · intro cg extra startIndex
    exact findNextAux_fuel_irrelevant cg _ _ [startIndex] []
      (by have := hpot cg startIndex; omega) (hpot cg startIndex)
  · intro cg hwf s hs
    refine findNextAux_ok cg hwf _ [s] [] (hpot cg s) ?_
    intro q hq
    rw [List.mem_singleton] at hq
    subst hq
    exact hs
  · intro cg last succ sb h1 h2 h3
    unfold succEdgeChunks
    rw [h1, h3]
    simp [h2]

/-- Witness for C8: the two-block cyclic graph of empty blocks is
well-formed, the lookahead on it returns without error (finding no
statement-bearing block), and the cross-block edge from a node of some
predecessor falls back to the placeholder of block 0. -/
theorem lookahead_terminates_with_fallback_witness :
    WFcfg cfgCycle
    ∧ (∃ r, findNextBlockWithNodes cfgCycle 0 = Except.ok r)
    ∧ succEdgeChunks cfgCycle "x" ⟨0, BKind.body⟩
        = Except.ok ["  x -> block_0 [color=\"black\"];\n"] := by
  have hwf : WFcfg cfgCycle := by
    unfold WFcfg
    decide
  exact ⟨hwf,
    lookahead_terminates_with_fallback.2.1 cfgCycle hwf 0 (by decide),
    lookahead_terminates_with_fallback.2.2 cfgCycle "x" ⟨0, BKind.body⟩ cycBlk0
      rfl rfl rfl⟩


theorem countIn_eq_of_mem (input : List (String × Nat))
    (hin : (input.map Prod.fst).Nodup) {p : String × Nat} (hp : p ∈ input) :
    countIn input p.1 = p.2 := by
  induction input with
  | nil => cases hp
  | cons q rest ih =>
    simp only [List.map_cons, List.nodup_cons] at hin
    rcases List.mem_cons.mp hp with rfl | hmem
    · unfold countIn
      rw [List.find?_cons_of_pos _ (by simp)]
    · have hne : ¬ (q.1 == p.1) = true := by
        simp only [beq_iff_eq]
        intro he
        apply hin.1
        rw [he]
        exact List.mem_map_of_mem Prod.fst hmem
      unfold countIn
      rw [@List.find?_cons_of_neg _ (fun p1 => p1.1 == p.1) q rest hne]
      exact ih hin.2 hmem

theorem length_filter_toFinset (l : List String) (hl : l.Nodup) (p : String → Bool) :
    (l.filter p).length = (l.toFinset.filter (fun k => p k = true)).card := by
  rw [← List.toFinset_filter]
  exact (List.toFinset_card_of_nodup (hl.filter p)).symm

theorem pairs_filter_length (input : List (String × Nat))
    (hin : (input.map Prod.fst).Nodup) (f : String × Nat → Bool) :
    (input.filter f).length
      = ((input.map Prod.fst).toFinset.filter
          (fun k => f (k, countIn input k) = true)).card := by
  have hsub : ((input.filter f).map Prod.fst).Sublist (input.map Prod.fst) :=
    (List.filter_sublist input).map Prod.fst
  have hnd : ((input.filter f).map Prod.fst).Nodup := List.Nodup.sublist hsub hin
  rw [← List.length_map (input.filter f) Prod.fst, ← List.toFinset_card_of_nodup hnd]
  congr 1
  ext k
  simp only [List.mem_toFinset, List.mem_map, List.mem_filter, Finset.mem_filter]
  constructor
  · rintro ⟨p, ⟨hpmem, hpf⟩, rfl⟩
    refine ⟨⟨p, hpmem, rfl⟩, ?_⟩
    rw [countIn_eq_of_mem input hin hpmem, Prod.mk.eta]
    exact hpf
  · rintro ⟨⟨p, hpmem, rfl⟩, hf⟩
    refine ⟨p, ⟨hpmem, ?_⟩, rfl⟩
    rwa [countIn_eq_of_mem input hin hpmem, Prod.mk.eta] at hf

theorem inputFinal_filter_eq (input : List (String × Nat)) (modified control : List String) :
    inputFinal input modified control
      = input.filter (fun p => (!(p.2 == 1)
          && decide (p.1 ∉ modifiedAfterControl modified control))
          && decide (p.1 ∉ control)) := by
  unfold inputFinal inputAfterModified inputAfterControl
  rw [List.filter_filter, List.filter_filter]

theorem unusedFinal_filter_eq (input : List (String × Nat)) (modified control : List String) :
    unusedFinal input modified control
      = (input.filter (fun p => ((p.2 == 1)
          && decide (p.1 ∉ modifiedAfterControl modified control))
          && decide (p.1 ∉ control))).map Prod.fst := by
  unfold unusedFinal inputAfterModified inputAfterControl
  rw [List.filter_filter, List.filter_filter]

theorem modifiedAfterControl_card (modified control : List String) (hmod : modified.Nodup) :
    (modifiedAfterControl modified control).length = (specModifiedSet modified control).card := by
  unfold modifiedAfterControl
  rw [length_filter_toFinset modified hmod]
  congr 1
  ext k
  simp [specModifiedSet]

theorem inputFinal_card (input : List (String × Nat)) (modified control : List String)
    (hin : (input.map Prod.fst).Nodup) :
    (inputFinal input modified control).length
      = (specInputSet input modified control).card := by
  rw [inputFinal_filter_eq, pairs_filter_length input hin]
  congr 1
  ext k
  simp only [Finset.mem_filter, specInputSet, specInputReconciled, specModifiedSet,
    Finset.mem_sdiff, List.mem_toFinset, Bool.and_eq_true, decide_eq_true_eq,
    Bool.not_eq_true', beq_eq_false_iff_ne, ne_eq, mem_modifiedAfterControl]
  tauto

theorem unusedFinal_card (input : List (String × Nat)) (modified control : List String)
    (hin : (input.map Prod.fst).Nodup) :
    (unusedFinal input modified control).length
      = (specUnusedSet input modified control).card := by
  rw [unusedFinal_filter_eq, List.length_map, pairs_filter_length input hin]
  congr 1
  ext k
  simp only [Finset.mem_filter, specUnusedSet, specInputReconciled, specModifiedSet,
    Finset.mem_sdiff, List.mem_toFinset, Bool.and_eq_true, decide_eq_true_eq,
    beq_iff_eq, mem_modifiedAfterControl]
  tauto

/-- Claim C1: the Chepin score of a run equals the weighted size
formula P + 2M + 3C + 0.5T taken over the reconciled sets obtained by
removing control members from the input and modified sets, then
modified members from the input set, then moving the singly occurring
input variables into the unused set. -/
theorem chepin_score_formula :
    ∀ (input : List (String × Nat)) (modified control : List String),
      (input.map Prod.fst).Nodup → modified.Nodup → control.Nodup →
      chepinQ input modified control
        = ((specInputSet input modified control).card : ℚ)
          + 2 * ((specModifiedSet modified control).card : ℚ)
          + 3 * ((specControlSet control).card : ℚ)
          + (1 / 2 : ℚ) * ((specUnusedSet input modified control).card : ℚ) := by
  intro input modified control hin hmod hctl
  unfold chepinQ
  rw [inputFinal_card input modified control hin,
    modifiedAfterControl_card modified control hmod,
    unusedFinal_card input modified control hin]
  have hC : control.length = (specControlSet control).card := by
    simp [specControlSet, List.toFinset_card_of_nodup hctl]
  rw [hC]

/-- Witness for C1: the formula instantiated on a concrete state with
duplicate-free maps. -/
theorem chepin_score_formula_witness :
    chepinQ [("a", 1), ("b", 2)] ["b", "c"] ["c"]
      = ((specInputSet [("a", 1), ("b", 2)] ["b", "c"] ["c"]).card : ℚ)
        + 2 * ((specModifiedSet ["b", "c"] ["c"]).card : ℚ)
        + 3 * ((specControlSet ["c"]).card : ℚ)
        + (1 / 2 : ℚ) * ((specUnusedSet [("a", 1), ("b", 2)] ["b", "c"] ["c"]).card : ℚ) :=
  chepin_score_formula [("a", 1), ("b", 2)] ["b", "c"] ["c"]
    (by decide) (by decide) (by decide)

end PDG
